import Mathlib

/-!
Verification development for the text-scoring engine of the SEO content
analyzer (`src/pages/Index.tsx`).  Strings are modelled as `List Char`,
numeric scores as `ℚ` (JavaScript numbers, exact on the rationals the
program manipulates), and the JavaScript string/regex primitives used by
the code (`trim`, `split(/\s+/)`, `split(/[.!?]+/)`, `replace(/\s+/g,'')`,
`match(/\b[a-z]{3,}\b/g)`, the heading regexes, `includes`) are embedded
as executable functions over `List Char`.  The embedding models the ASCII
fragment of the JavaScript semantics: `\s` is the ASCII whitespace class,
`toLowerCase` is ASCII lowering, and `\b` word characters are
`[A-Za-z0-9_]`, exactly as in (non-unicode) JavaScript regexes.
-/

namespace SEO

/-- ASCII whitespace, the ASCII fragment of the JavaScript `\s` class
(space, tab, line feed, carriage return, vertical tab, form feed). -/
def isWS (c : Char) : Bool :=
  c == ' ' || c == '\t' || c == '\n' || c == '\r' || c.val == 11 || c.val == 12

/-- JavaScript line terminators (ASCII fragment), the characters `.` does
not match and after which a multiline `^` matches. -/
def isNL (c : Char) : Bool :=
  c == '\n' || c == '\r'

/-- The sentence-delimiter class `[.!?]` of `calculateReadability`. -/
def isSentencePunct (c : Char) : Bool :=
  c == '.' || c == '!' || c == '?'

/-- Lower-case ASCII letter, the `[a-z]` class of the keyword regex. -/
def isLowerAlpha (c : Char) : Bool :=
  'a' ≤ c && c ≤ 'z'

/-- JavaScript regex word character `[A-Za-z0-9_]`, deciding `\b`. -/
def isWordChar (c : Char) : Bool :=
  c.isAlphanum || c == '_'

/-- ASCII `toLowerCase`. -/
def lc (s : List Char) : List Char :=
  s.map Char.toLower

/-- JavaScript `String.prototype.trim` (ASCII whitespace fragment). -/
def jsTrim (s : List Char) : List Char :=
  ((s.dropWhile isWS).reverse.dropWhile isWS).reverse

/-- Counts the maximal runs of characters satisfying `p`; the Boolean
argument records whether the previous character satisfied `p`. -/
def countRuns (p : Char → Bool) : Bool → List Char → Nat
  | _, [] => 0
  | inR, c :: cs =>
      if p c = true then (if inR = true then 0 else 1) + countRuns p true cs
      else countRuns p false cs

/-- The word count of `calculateReadability`:
`text.trim().split(/\s+/).length`.  JavaScript `split` on the empty
string yields `[""]` (length 1); on a nonempty trimmed string it yields
the maximal non-whitespace runs. -/
def wordsR (s : List Char) : Nat :=
  if jsTrim s = [] then 1 else countRuns (fun c => !isWS c) false (jsTrim s)

/-- The sentence count of `calculateReadability`:
`text.split(/[.!?]+/).length`, which is one more than the number of
maximal `[.!?]` runs in the text. -/
def sentencesR (s : List Char) : Nat :=
  countRuns isSentencePunct false s + 1

/-- The character count of `calculateReadability`:
`text.replace(/\s+/g, '').length`. -/
def charsR (s : List Char) : Nat :=
  (s.filter (fun c => !isWS c)).length

/-- JavaScript `Math.max` on two (non-NaN) numbers. -/
def jsMax (a b : ℚ) : ℚ :=
  if a ≤ b then b else a

/-- JavaScript `Math.min` on two (non-NaN) numbers. -/
def jsMin (a b : ℚ) : ℚ :=
  if a ≤ b then a else b

/-- `calculateReadability` from `src/pages/Index.tsx`. -/
def calculateReadability (s : List Char) : ℚ :=
  let words := wordsR s
  let sentences := sentencesR s
  let characters := charsR s
  if sentences = 0 ∨ words = 0 then 0
  else
    jsMax 0 (jsMin 100
      (100 - ((words : ℚ) / (sentences : ℚ)) * 1.8
           - ((characters : ℚ) / (words : ℚ)) * 8))

/-- `calculateWordCount` from `src/pages/Index.tsx`:
`text.trim().split(/\s+/).filter(Boolean).length`.  The `filter(Boolean)`
drops the single empty segment produced for a blank input, so this is the
number of maximal non-whitespace runs of the trimmed text. -/
def calculateWordCount (s : List Char) : Nat :=
  countRuns (fun c => !isWS c) false (jsTrim s)

/-- One step of the global regex scan for `/\b[a-z]{3,}\b/g` on the
(lowered) text.  `prevW` records whether the character just before the
current position is a word character (deciding the left `\b`), `cur` is
the reversed run of `[a-z]` characters read so far.  A maximal `[a-z]`
run is a match exactly when it has length at least 3, the character
before it is absent or a non-word character, and the character after it
is absent or a non-word character (interior start or end positions fail
one of the `\b` tests, and `[a-z]{3,}` cannot backtrack past them). -/
def tokAux (prevW : Bool) (cur : List Char) : List Char → List (List Char)
  | [] => if prevW = false ∧ 3 ≤ cur.length then [cur.reverse] else []
  | c :: cs =>
      if isLowerAlpha c = true then tokAux prevW (c :: cur) cs
      else
        (if prevW = false ∧ 3 ≤ cur.length ∧ isWordChar c = false
         then [cur.reverse] else []) ++ tokAux (isWordChar c) [] cs

/-- `text.toLowerCase().match(/\b[a-z]{3,}\b/g) || []` from
`analyzeKeywords`: the qualifying tokens in text order. -/
def tokensOf (s : List Char) : List (List Char) :=
  tokAux false [] (lc s)

/-- One `keywordCounts[word] = (keywordCounts[word] || 0) + 1` update:
increments the entry for `k`, appending a fresh entry at the end when
absent (JavaScript object string keys preserve insertion order). -/
def bump (k : List Char) :
    List (List Char × Nat) → List (List Char × Nat)
  | [] => [(k, 1)]
  | (k', n) :: rest =>
      if k' = k then (k', n + 1) :: rest else (k', n) :: bump k rest

/-- The frequency table built by `words.forEach(...)` in
`analyzeKeywords`, in first-seen key order. -/
def keywordCounts (ws : List (List Char)) : List (List Char × Nat) :=
  ws.foldl (fun acc w => bump w acc) []

/-- Stable insertion of one entry into a list already sorted descending
by count: the entry goes after every earlier entry of greater or equal
count, as a stable sort with comparator `(a, b) => b[1] - a[1]` does. -/
def insertDesc (x : List Char × Nat) :
    List (List Char × Nat) → List (List Char × Nat)
  | [] => [x]
  | y :: ys => if x.2 ≤ y.2 then y :: insertDesc x ys else x :: y :: ys

/-- The `Object.entries(keywordCounts).sort((a, b) => b[1] - a[1])` step:
a stable sort in descending count order (ECMAScript `Array.prototype.sort`
is stable, so equal counts keep first-seen order). -/
def sortDesc : List (List Char × Nat) → List (List Char × Nat)
  | [] => []
  | x :: xs => insertDesc x (sortDesc xs)

/-- Result record of `analyzeKeywords`. -/
structure KeywordResult where
  score : ℚ
  keywords : List (List Char)
deriving DecidableEq

/-- `analyzeKeywords` from `src/pages/Index.tsx`. -/
def analyzeKeywords (s : List Char) : KeywordResult :=
  let words := tokensOf s
  if words.length = 0 then ⟨0, []⟩
  else
    let counts := keywordCounts words
    let sortedKeywords := ((sortDesc counts).take 5).map Prod.fst
    let uniqueWordFrac : ℚ := (counts.length : ℚ) / (words.length : ℚ)
    ⟨jsMin 100 (uniqueWordFrac * 150), sortedKeywords⟩

/-- Scan for a multiline match of `^#\s.+`: some position at the start of
the text or just after a line terminator holds `#`, then a whitespace
character, then at least one non-line-terminator character.  `atStart`
records whether the current position is such a line start. -/
def mdH1Scan (atStart : Bool) : List Char → Bool
  | [] => false
  | c :: cs =>
      (atStart && c == '#' &&
        (match cs with
         | d :: e :: _ => isWS d && !isNL e
         | _ => false)) ||
      mdH1Scan (isNL c) cs

/-- Scan for a multiline match of `^#{2,}\s.+`: a line starts with a run
of two or more `#`, then a whitespace character, then at least one
non-line-terminator character (the greedy `#{2,}` can only succeed on the
whole `#` run, since backtracking leaves a `#` where `\s` is required). -/
def mdSubScan (atStart : Bool) : List Char → Bool
  | [] => false
  | c :: cs =>
      (atStart && c == '#' &&
        (match cs with
         | '#' :: rest =>
             (match rest.dropWhile (fun x => x == '#') with
              | d :: e :: _ => isWS d && !isNL e
              | _ => false)
         | _ => false)) ||
      mdSubScan (isNL c) cs

/-- After `<h1` (or `<hN`), the `[^>]*>` part: `[^>]*` can only consume
the characters before the first `>`, which must then be present. -/
def afterTagOpen (t : List Char) : Option (List Char) :=
  match t.dropWhile (fun c => c != '>') with
  | '>' :: body => some body
  | _ => none

/-- The `.+</h1>` part on lowered text: some nonempty prefix of
non-line-terminator characters is followed immediately by `</h1>`. -/
def dotPlusCloseH1 : List Char → Bool
  | [] => false
  | c :: cs =>
      if isNL c = true then false
      else ("</h1>".toList.isPrefixOf cs) || dotPlusCloseH1 cs

/-- A match of `<h1[^>]*>.+<\/h1>` starting exactly here (lowered text). -/
def htmlH1At : List Char → Bool
  | '<' :: 'h' :: '1' :: rest =>
      (match afterTagOpen rest with
       | some body => dotPlusCloseH1 body
       | none => false)
  | _ => false

/-- Whether `<h1[^>]*>.+<\/h1>` matches anywhere in the (lowered) text. -/
def containsHtmlH1 : List Char → Bool
  | [] => false
  | c :: cs => htmlH1At (c :: cs) || containsHtmlH1 cs

/-- A digit `2`‥`6`, the class `[2-6]` of the subheading regex. -/
def isDigit26 (c : Char) : Bool :=
  '2' ≤ c && c ≤ '6'

/-- A closing `<\/h[2-6]>` starting exactly here (lowered text); the
closing digit is independent of the opening one. -/
def closeSubAt : List Char → Bool
  | '<' :: '/' :: 'h' :: d :: '>' :: _ => isDigit26 d
  | _ => false

/-- The `.+<\/h[2-6]>` part on lowered text. -/
def dotPlusCloseSub : List Char → Bool
  | [] => false
  | c :: cs =>
      if isNL c = true then false
      else closeSubAt cs || dotPlusCloseSub cs

/-- A match of `<h[2-6][^>]*>.+<\/h[2-6]>` starting exactly here. -/
def htmlSubAt : List Char → Bool
  | '<' :: 'h' :: d :: rest =>
      isDigit26 d &&
      (match afterTagOpen rest with
       | some body => dotPlusCloseSub body
       | none => false)
  | _ => false

/-- Whether `<h[2-6][^>]*>.+<\/h[2-6]>` matches anywhere in the text. -/
def containsHtmlSub : List Char → Bool
  | [] => false
  | c :: cs => htmlSubAt (c :: cs) || containsHtmlSub cs

/-- Result record of `analyzeHeadings`. -/
structure HeadingResult where
  score : ℚ
  hasH1 : Bool
  hasSubheadings : Bool
deriving DecidableEq

/-- `analyzeHeadings` from `src/pages/Index.tsx`.  The case-insensitive
flag is modelled by matching the (lowercase) patterns against the lowered
text; `hasSubheadings` is `match !== null && match.length > 0`, i.e. the
existence of at least one match. -/
def analyzeHeadings (s : List Char) : HeadingResult :=
  let t := lc s
  let hasH1 := mdH1Scan true t || containsHtmlH1 t
  let hasSubheadings := mdSubScan true t || containsHtmlSub t
  let score : ℚ := (if hasH1 = true then 50 else 0) +
                   (if hasSubheadings = true then 50 else 0)
  ⟨score, hasH1, hasSubheadings⟩

/-- JavaScript `String.prototype.includes`: `p` occurs as a contiguous
substring of `s` (case-sensitive). -/
def hasSubstr (p : List Char) : List Char → Bool
  | [] => p.isEmpty
  | c :: cs => p.isPrefixOf (c :: cs) || hasSubstr p cs

def sugShortSentences : List Char :=
  "Use shorter sentences to improve readability.".toList

def sugBreakParagraphs : List Char :=
  "Break up long paragraphs into smaller ones.".toList

def sugIntensifiers : List Char :=
  "Replace generic intensifiers like \"very\" and \"really\" with more specific words.".toList

def sugMoreKeywords : List Char :=
  "Include more relevant keywords throughout your content.".toList

/-- The template literal
`Consider focusing on these keywords: ${keywords.slice(0, 3).join(', ')}.` -/
def sugFocusKeywords (ks : List (List Char)) : List Char :=
  "Consider focusing on these keywords: ".toList ++
    List.intercalate (", ".toList) ks ++ ".".toList

def sugAddH1 : List Char :=
  "Add a clear H1 title to your content.".toList

def sugAddSubheadings : List Char :=
  "Add subheadings (H2, H3) to break up your content and improve structure.".toList

def sugMoreContent : List Char :=
  "Consider adding more content. Articles with 1000+ words tend to perform better in search results.".toList

def sugExternalLinks : List Char :=
  "Include external links to authoritative sources to improve credibility.".toList

def sugInternalLinks : List Char :=
  "Add internal links to other relevant content on your site.".toList

def veryT : List Char := "very".toList

def reallyT : List Char := "really".toList

/-- The four suggestion categories returned by `getSEOSuggestions`; the
source field `structure` is a Lean keyword, hence `structureSugs`. -/
structure Suggestions where
  readability : List (List Char)
  keywords : List (List Char)
  structureSugs : List (List Char)
  general : List (List Char)
deriving DecidableEq

/-- `getSEOSuggestions` from `src/pages/Index.tsx`: each category list is
the sequence of `push`es the code performs. -/
def getSEOSuggestions (s : List Char) : Suggestions :=
  let wordCount := calculateWordCount s
  let readabilityScore := calculateReadability s
  let keywords := (analyzeKeywords s).keywords
  let hasH1 := (analyzeHeadings s).hasH1
  let hasSubheadings := (analyzeHeadings s).hasSubheadings
  { readability :=
      (if readabilityScore < 50 then [sugShortSentences, sugBreakParagraphs] else []) ++
      (if hasSubstr veryT s = true ∨ hasSubstr reallyT s = true
       then [sugIntensifiers] else []),
    keywords :=
      if keywords.length < 3 then [sugMoreKeywords]
      else [sugFocusKeywords (keywords.take 3)],
    structureSugs :=
      (if hasH1 = false then [sugAddH1] else []) ++
      (if hasSubheadings = false then [sugAddSubheadings] else []),
    general :=
      (if wordCount < 300 then [sugMoreContent] else []) ++
      [sugExternalLinks, sugInternalLinks] }

/-- Modelled from the spec: the deterministic rule table of
`buildSuggestions` (§4.1), one row per rule, each category the
concatenation of the rows that fire, in table order. -/
def buildSuggestionsSpec (s : List Char) : Suggestions :=
  { readability :=
      (if calculateReadability s < 50 then [sugShortSentences] else []) ++
      (if calculateReadability s < 50 then [sugBreakParagraphs] else []) ++
      (if hasSubstr veryT s = true ∨ hasSubstr reallyT s = true
       then [sugIntensifiers] else []),
    keywords :=
      (if (analyzeKeywords s).keywords.length < 3 then [sugMoreKeywords] else []) ++
      (if 3 ≤ (analyzeKeywords s).keywords.length
       then [sugFocusKeywords ((analyzeKeywords s).keywords.take 3)] else []),
    structureSugs :=
      (if (analyzeHeadings s).hasH1 = false then [sugAddH1] else []) ++
      (if (analyzeHeadings s).hasSubheadings = false then [sugAddSubheadings] else []),
    general :=
      (if calculateWordCount s < 300 then [sugMoreContent] else []) ++
      [sugExternalLinks] ++ [sugInternalLinks] }

/-- Lookup of the stored count for key `k` (0 when absent); proof
infrastructure for reasoning about the frequency table. -/
def lookupCount (k : List Char) : List (List Char × Nat) → Nat
  | [] => 0
  | q :: rest => if q.1 = k then q.2 else lookupCount k rest

/-- The keys of an association list are pairwise distinct. -/
def NodupKeys (l : List (List Char × Nat)) : Prop :=
  l.Pairwise (fun p q => p.1 ≠ q.1)

section Lemmas

theorem countRuns_nil_eq (p : Char → Bool) (b : Bool) : countRuns p b [] = 0 :=
  rfl

theorem countRuns_zero (p : Char → Bool) :
    ∀ (s : List Char) (b : Bool), (∀ c ∈ s, p c = false) → countRuns p b s = 0 := by
  intro s
  induction s with
  | nil => intro b _; rfl
  | cons c cs ih =>
    intro b h
    have hc : p c = false := h c (List.mem_cons_self c cs)
    have hcs : ∀ d ∈ cs, p d = false := fun d hd => h d (List.mem_cons_of_mem c hd)
    simp only [countRuns, hc]
    exact ih false hcs

theorem dropWhile_head_false {α : Type} (p : α → Bool) :
    ∀ (s : List α) (c : α) (cs : List α), s.dropWhile p = c :: cs → p c = false := by
  intro s
  induction s with
  | nil => intro c cs h; simp [List.dropWhile] at h
  | cons a as ih =>
    intro c cs h
    by_cases ha : p a = true
    · rw [List.dropWhile_cons_of_pos ha] at h
      exact ih c cs h
    · rw [List.dropWhile_cons_of_neg ha] at h
      obtain ⟨h1, h2⟩ := List.cons.inj h
      subst h1
      simp only [Bool.not_eq_true] at ha
      exact ha

theorem jsTrim_head_not_ws (s : List Char) (c : Char) (cs : List Char)
    (h : jsTrim s = c :: cs) : isWS c = false := by
  unfold jsTrim at h
  obtain ⟨w, hw⟩ := List.dropWhile_suffix (l := (s.dropWhile isWS).reverse) isWS
  have hu : s.dropWhile isWS =
      ((s.dropWhile isWS).reverse.dropWhile isWS).reverse ++ w.reverse := by
    have := congrArg List.reverse hw
    simpa [List.reverse_append] using this.symm
  rw [h] at hu
  exact dropWhile_head_false isWS s c (cs ++ w.reverse) (by simpa using hu)

theorem wordsR_pos (s : List Char) : 1 ≤ wordsR s := by
  unfold wordsR
  split
  · exact le_refl 1
  · rename_i h
    cases ht : jsTrim s with
    | nil => exact absurd ht h
    | cons c cs =>
      have hc : isWS c = false := jsTrim_head_not_ws s c cs ht
      simp [countRuns, hc]

theorem sentencesR_pos (s : List Char) : 1 ≤ sentencesR s := by
  unfold sentencesR
  omega

theorem calculateReadability_formula (s : List Char) :
    calculateReadability s =
      jsMax 0 (jsMin 100
        (100 - ((wordsR s : ℚ) / (sentencesR s : ℚ)) * 1.8
             - ((charsR s : ℚ) / (wordsR s : ℚ)) * 8)) := by
  unfold calculateReadability
  rw [if_neg]
  rintro (h | h)
  · have := sentencesR_pos s; omega
  · have := wordsR_pos s; omega

theorem punct_not_ws {c : Char} (h : isSentencePunct c = true) : isWS c = false := by
  simp only [isSentencePunct, Bool.or_eq_true, beq_iff_eq] at h
  rcases h with (h | h) | h <;> subst h <;> decide

theorem all_ws_no_punct {s : List Char} (h : ∀ c ∈ s, isWS c = true) :
    ∀ c ∈ s, isSentencePunct c = false := by
  intro c hc
  cases hp : isSentencePunct c with
  | false => rfl
  | true =>
    have h1 : isWS c = false := punct_not_ws hp
    rw [h c hc] at h1
    exact absurd h1 (by simp)

theorem sentencesR_no_punct {s : List Char}
    (h : ∀ c ∈ s, isSentencePunct c = false) : sentencesR s = 1 := by
  unfold sentencesR
  rw [countRuns_zero isSentencePunct s false h]

theorem jsTrim_all_ws {s : List Char} (h : ∀ c ∈ s, isWS c = true) :
    jsTrim s = [] := by
  unfold jsTrim
  have hd : s.dropWhile isWS = [] := by
    cases hh : s.dropWhile isWS with
    | nil => rfl
    | cons c cs =>
      have h1 : isWS c = false := dropWhile_head_false isWS s c cs hh
      have h2 : c ∈ s := by
        have hsub := (List.dropWhile_suffix (l := s) isWS).subset
        exact hsub (hh ▸ List.mem_cons_self c cs)
      rw [h c h2] at h1
      exact absurd h1 (by simp)
  rw [hd]
  rfl

theorem wordsR_all_ws {s : List Char} (h : ∀ c ∈ s, isWS c = true) :
    wordsR s = 1 := by
  unfold wordsR
  rw [if_pos (jsTrim_all_ws h)]

theorem charsR_all_ws {s : List Char} (h : ∀ c ∈ s, isWS c = true) :
    charsR s = 0 := by
  unfold charsR
  rw [List.length_eq_zero, List.filter_eq_nil_iff]
  intro c hc
  simp [h c hc]

theorem mem_bump (k : List Char) :
    ∀ (l : List (List Char × Nat)) (p : List Char × Nat),
      p ∈ bump k l → p.1 = k ∨ p ∈ l := by
  intro l
  induction l with
  | nil =>
    intro p hp
    simp only [bump, List.mem_singleton] at hp
    subst hp
    exact Or.inl rfl
  | cons q rest ih =>
    intro p hp
    obtain ⟨k', n⟩ := q
    simp only [bump] at hp
    split at hp
    · rename_i hk
      rcases List.mem_cons.mp hp with h | h
      · subst h; exact Or.inl hk
      · exact Or.inr (List.mem_cons_of_mem _ h)
    · rcases List.mem_cons.mp hp with h | h
      · subst h; exact Or.inr (List.mem_cons_self _ _)
      · rcases ih p h with h1 | h1
        · exact Or.inl h1
        · exact Or.inr (List.mem_cons_of_mem _ h1)

theorem lookup_bump_self (k : List Char) :
    ∀ l, lookupCount k (bump k l) = lookupCount k l + 1 := by
  intro l
  induction l with
  | nil => simp [bump, lookupCount]
  | cons q rest ih =>
    obtain ⟨k', n⟩ := q
    by_cases hk : k' = k
    · subst hk
      simp [bump, lookupCount]
    · simp [bump, lookupCount, hk, ih]

theorem lookup_bump_ne (j k : List Char) (hjk : j ≠ k) :
    ∀ l, lookupCount j (bump k l) = lookupCount j l := by
  intro l
  induction l with
  | nil =>
    show (if k = j then 1 else lookupCount j []) = 0
    rw [if_neg fun h => hjk h.symm]
    rfl
  | cons q rest ih =>
    obtain ⟨k', n⟩ := q
    simp only [bump]
    by_cases hk : k' = k
    · rw [if_pos hk]
      have hj : ¬ k' = j := fun h => hjk (h.symm.trans hk)
      simp only [lookupCount]
      rw [if_neg hj, if_neg hj]
    · rw [if_neg hk]
      simp only [lookupCount]
      rw [ih]

theorem nodupKeys_bump (k : List Char) :
    ∀ l, NodupKeys l → NodupKeys (bump k l) := by
  intro l
  induction l with
  | nil => intro _; simp [bump, NodupKeys]
  | cons q rest ih =>
    intro h
    obtain ⟨k', n⟩ := q
    rw [NodupKeys, List.pairwise_cons] at h
    obtain ⟨h1, h2⟩ := h
    by_cases hk : k' = k
    · simp only [bump]
      rw [if_pos hk, NodupKeys, List.pairwise_cons]
      exact ⟨h1, h2⟩
    · simp only [bump]
      rw [if_neg hk]
      rw [NodupKeys, List.pairwise_cons]
      refine ⟨fun p hp => ?_, ih h2⟩
      rcases mem_bump k rest p hp with hh | hh
      · rw [hh]; exact hk
      · exact h1 p hh

theorem mem_eq_lookup :
    ∀ (l : List (List Char × Nat)), NodupKeys l →
      ∀ p ∈ l, p.2 = lookupCount p.1 l := by
  intro l
  induction l with
  | nil => intro _ p hp; simp at hp
  | cons q rest ih =>
    intro h p hp
    rw [NodupKeys, List.pairwise_cons] at h
    obtain ⟨h1, h2⟩ := h
    rcases List.mem_cons.mp hp with hh | hh
    · subst hh
      simp [lookupCount]
    · have hne : q.1 ≠ p.1 := h1 p hh
      simp only [lookupCount]
      rw [if_neg hne]
      exact ih h2 p hh

theorem lookup_foldl (k : List Char) :
    ∀ (ws : List (List Char)) (acc : List (List Char × Nat)),
      lookupCount k (ws.foldl (fun a w => bump w a) acc) =
        lookupCount k acc + ws.count k := by
  intro ws
  induction ws with
  | nil => intro acc; simp
  | cons w ws ih =>
    intro acc
    simp only [List.foldl_cons]
    rw [ih (bump w acc), List.count_cons]
    by_cases hw : w = k
    · subst hw
      rw [lookup_bump_self]
      simp only [beq_self_eq_true, if_true]
      omega
    · rw [lookup_bump_ne k w fun h => hw h.symm]
      have hb : (w == k) = false := beq_eq_false_iff_ne.mpr hw
      simp [hb]

theorem nodupKeys_keywordCounts (ws : List (List Char)) :
    NodupKeys (keywordCounts ws) := by
  unfold keywordCounts
  suffices h : ∀ (l : List (List Char)) (acc : List (List Char × Nat)),
      NodupKeys acc → NodupKeys (l.foldl (fun a w => bump w a) acc) by
    exact h ws [] (by simp [NodupKeys])
  intro l
  induction l with
  | nil => intro acc h; simpa using h
  | cons w l ih =>
    intro acc h
    simp only [List.foldl_cons]
    exact ih (bump w acc) (nodupKeys_bump w acc h)

theorem mem_keywordCounts_count (ws : List (List Char))
    (p : List Char × Nat) (hp : p ∈ keywordCounts ws) :
    p.2 = ws.count p.1 := by
  have h1 := mem_eq_lookup (keywordCounts ws) (nodupKeys_keywordCounts ws) p hp
  rw [h1]
  show lookupCount p.1 (keywordCounts ws) = ws.count p.1
  unfold keywordCounts
  rw [lookup_foldl]
  simp [lookupCount]

theorem mem_keywordCounts_of_foldl :
    ∀ (ws : List (List Char)) (acc : List (List Char × Nat)) (p : List Char × Nat),
      p ∈ ws.foldl (fun a w => bump w a) acc → p ∈ acc ∨ p.1 ∈ ws := by
  intro ws
  induction ws with
  | nil => intro acc p hp; exact Or.inl (by simpa using hp)
  | cons w ws ih =>
    intro acc p hp
    simp only [List.foldl_cons] at hp
    rcases ih (bump w acc) p hp with h | h
    · rcases mem_bump w acc p h with h1 | h1
      · exact Or.inr (by rw [h1]; exact List.mem_cons_self _ _)
      · exact Or.inl h1
    · exact Or.inr (List.mem_cons_of_mem _ h)

theorem keys_subset_tokens (ws : List (List Char)) (p : List Char × Nat)
    (hp : p ∈ keywordCounts ws) : p.1 ∈ ws := by
  rcases mem_keywordCounts_of_foldl ws [] p hp with h | h
  · simp at h
  · exact h

theorem lookup_pos_mem (k : List Char) :
    ∀ l, lookupCount k l ≠ 0 → k ∈ l.map Prod.fst := by
  intro l
  induction l with
  | nil => intro h; simp [lookupCount] at h
  | cons q rest ih =>
    intro h
    simp only [lookupCount] at h
    by_cases hk : q.1 = k
    · simp [hk]
    · rw [if_neg hk] at h
      simp only [List.map_cons, List.mem_cons]
      exact Or.inr (ih h)

theorem tokens_subset_keys (ws : List (List Char)) (w : List Char)
    (hw : w ∈ ws) : w ∈ (keywordCounts ws).map Prod.fst := by
  apply lookup_pos_mem
  show lookupCount w (keywordCounts ws) ≠ 0
  unfold keywordCounts
  rw [lookup_foldl]
  have : 0 < ws.count w := List.count_pos_iff.mpr hw
  simp [lookupCount]
  omega

theorem tokAux_spec :
    ∀ (rest : List Char) (prevW : Bool) (cur : List Char),
      (∀ c ∈ cur, isLowerAlpha c = true) →
      ∀ t ∈ tokAux prevW cur rest,
        3 ≤ t.length ∧ ∀ c ∈ t, isLowerAlpha c = true := by
  intro rest
  induction rest with
  | nil =>
    intro prevW cur hcur t ht
    unfold tokAux at ht
    split at ht
    · rename_i hcond
      simp only [List.mem_singleton] at ht
      subst ht
      refine ⟨by simpa using hcond.2, fun c hc => hcur c (List.mem_reverse.mp hc)⟩
    · simp at ht
  | cons c cs ih =>
    intro prevW cur hcur t ht
    unfold tokAux at ht
    split at ht
    · rename_i hlow
      refine ih prevW (c :: cur) ?_ t ht
      intro d hd
      rcases List.mem_cons.mp hd with h | h
      · subst h; exact hlow
      · exact hcur d h
    · rw [List.mem_append] at ht
      rcases ht with ht | ht
      · split at ht
        · rename_i hcond
          simp only [List.mem_singleton] at ht
          subst ht
          refine ⟨by simpa using hcond.2.1, fun d hd => hcur d (List.mem_reverse.mp hd)⟩
        · simp at ht
      · exact ih (isWordChar c) [] (by simp) t ht

theorem insertDesc_perm (x : List Char × Nat) :
    ∀ l, List.Perm (insertDesc x l) (x :: l) := by
  intro l
  induction l with
  | nil => exact List.Perm.refl _
  | cons y ys ih =>
    unfold insertDesc
    split
    · exact (List.Perm.cons y ih).trans (List.Perm.swap x y ys)
    · exact List.Perm.refl _

theorem sortDesc_perm : ∀ l, List.Perm (sortDesc l) l := by
  intro l
  induction l with
  | nil => exact List.Perm.refl _
  | cons x xs ih =>
    unfold sortDesc
    exact (insertDesc_perm x (sortDesc xs)).trans (List.Perm.cons x ih)

theorem insertDesc_sorted (x : List Char × Nat) :
    ∀ l, l.Pairwise (fun p q : List Char × Nat => q.2 ≤ p.2) →
      (insertDesc x l).Pairwise (fun p q : List Char × Nat => q.2 ≤ p.2) := by
  intro l
  induction l with
  | nil => intro _; simp [insertDesc]
  | cons y ys ih =>
    intro h
    rw [List.pairwise_cons] at h
    obtain ⟨h1, h2⟩ := h
    unfold insertDesc
    split
    · rename_i hxy
      rw [List.pairwise_cons]
      refine ⟨fun p hp => ?_, ih h2⟩
      rcases List.mem_cons.mp ((insertDesc_perm x ys).mem_iff.mp hp) with hh | hh
      · rw [hh]; exact hxy
      · exact h1 p hh
    · rename_i hxy
      rw [List.pairwise_cons]
      refine ⟨fun p hp => ?_, List.pairwise_cons.mpr ⟨h1, h2⟩⟩
      rcases List.mem_cons.mp hp with hh | hh
      · rw [hh]; omega
      · have := h1 p hh
        omega

theorem sortDesc_sorted :
    ∀ l, (sortDesc l).Pairwise (fun p q : List Char × Nat => q.2 ≤ p.2) := by
  intro l
  induction l with
  | nil => simp [sortDesc]
  | cons x xs ih =>
    unfold sortDesc
    exact insertDesc_sorted x (sortDesc xs) ih

theorem jsMax_zero_nonneg (x : ℚ) : 0 ≤ jsMax 0 x := by
  unfold jsMax
  split
  · rename_i h; exact h
  · exact le_refl 0

theorem jsMin_le_100 (x : ℚ) : jsMin 100 x ≤ 100 := by
  unfold jsMin
  split
  · exact le_refl 100
  · rename_i h; linarith [not_le.mp h]

theorem jsMax_zero_le {x y : ℚ} (hx : x ≤ y) (hy : 0 ≤ y) : jsMax 0 x ≤ y := by
  unfold jsMax
  split
  · exact hx
  · exact hy

theorem jsMin_nonneg {a b : ℚ} (ha : 0 ≤ a) (hb : 0 ≤ b) : 0 ≤ jsMin a b := by
  unfold jsMin
  split
  · exact ha
  · exact hb

theorem jsMin_eq_min (a b : ℚ) : jsMin a b = min a b := by
  unfold jsMin
  exact (min_def a b).symm

theorem analyzeHeadings_score (s : List Char) :
    (analyzeHeadings s).score =
      (if (analyzeHeadings s).hasH1 = true then (50 : ℚ) else 0) +
      (if (analyzeHeadings s).hasSubheadings = true then (50 : ℚ) else 0) := rfl

theorem analyzeHeadings_eta (s : List Char) :
    analyzeHeadings s =
      ⟨(analyzeHeadings s).score, (analyzeHeadings s).hasH1,
        (analyzeHeadings s).hasSubheadings⟩ := rfl

theorem analyzeKeywords_score (s : List Char) :
    (analyzeKeywords s).score =
      if (tokensOf s).length = 0 then 0
      else jsMin 100 (((keywordCounts (tokensOf s)).length : ℚ) /
        ((tokensOf s).length : ℚ) * 150) := by
  by_cases h : (tokensOf s).length = 0 <;> simp [analyzeKeywords, h]

theorem analyzeKeywords_keywords (s : List Char) :
    (analyzeKeywords s).keywords =
      if (tokensOf s).length = 0 then []
      else ((sortDesc (keywordCounts (tokensOf s))).take 5).map Prod.fst := by
  by_cases h : (tokensOf s).length = 0 <;> simp [analyzeKeywords, h]

theorem keywordCounts_length_eq_dedup (ws : List (List Char)) :
    (keywordCounts ws).length = ws.dedup.length := by
  have hkeys : ((keywordCounts ws).map Prod.fst).Nodup :=
    List.pairwise_map.mpr (nodupKeys_keywordCounts ws)
  have hmem : ∀ a, a ∈ (keywordCounts ws).map Prod.fst ↔ a ∈ ws.dedup := by
    intro a
    rw [List.mem_dedup]
    constructor
    · intro ha
      obtain ⟨p, hp, rfl⟩ := List.mem_map.mp ha
      exact keys_subset_tokens ws p hp
    · intro ha
      exact tokens_subset_keys ws a ha
  have hperm := (List.perm_ext_iff_of_nodup hkeys (List.nodup_dedup ws)).mpr hmem
  have hlen := hperm.length_eq
  simpa using hlen

theorem getSEOSuggestions_readability (s : List Char) :
    (getSEOSuggestions s).readability =
      (if calculateReadability s < 50
       then [sugShortSentences, sugBreakParagraphs] else []) ++
      (if hasSubstr veryT s = true ∨ hasSubstr reallyT s = true
       then [sugIntensifiers] else []) := rfl

theorem getSEOSuggestions_keywords (s : List Char) :
    (getSEOSuggestions s).keywords =
      if (analyzeKeywords s).keywords.length < 3 then [sugMoreKeywords]
      else [sugFocusKeywords ((analyzeKeywords s).keywords.take 3)] := rfl

theorem getSEOSuggestions_structure (s : List Char) :
    (getSEOSuggestions s).structureSugs =
      (if (analyzeHeadings s).hasH1 = false then [sugAddH1] else []) ++
      (if (analyzeHeadings s).hasSubheadings = false
       then [sugAddSubheadings] else []) := rfl

theorem getSEOSuggestions_general (s : List Char) :
    (getSEOSuggestions s).general =
      (if calculateWordCount s < 300 then [sugMoreContent] else []) ++
      [sugExternalLinks, sugInternalLinks] := rfl

end Lemmas

/-- C1, counterexample: contrary to the claim, `calculateReadability` on
the empty string does not return 0 — JavaScript `split` always yields at
least one segment, so the word and sentence counts are 1 and the formula
gives 98.2. -/
theorem C1_counterexample : calculateReadability [] ≠ 0 := by
  have hw : wordsR [] = 1 := by decide
  have hs : sentencesR [] = 1 := by decide
  have hc : charsR [] = 0 := by decide
  rw [calculateReadability_formula, hw, hs, hc]
  norm_num [jsMax, jsMin]

/-- C1, amended: `calculateReadability` on the empty string returns
98.2 (= 491/5), not 0; the guard clause "if the word count or the
sentence count is 0, return 0" holds only vacuously, because the word
and sentence counts of every input are nonzero. -/
theorem C1_amended :
    calculateReadability [] = 491 / 5 ∧
    ∀ s : List Char, wordsR s ≠ 0 ∧ sentencesR s ≠ 0 := by
  constructor
  · have hw : wordsR [] = 1 := by decide
    have hs : sentencesR [] = 1 := by decide
    have hc : charsR [] = 0 := by decide
    rw [calculateReadability_formula, hw, hs, hc]
    norm_num [jsMax, jsMin]
  · intro s
    have h1 := wordsR_pos s
    have h2 := sentencesR_pos s
    omega

/-- C2: on input with no terminal punctuation (`.`, `!`, `?`), the
sentence count obtained by splitting on `[.!?]+` is 1 (the empty split
segment counts), and for a 3-word such input `calculateReadability`
computes the clamped formula instead of short-circuiting to 0. -/
theorem C2_no_terminal_punct (s : List Char)
    (h : ∀ c ∈ s, isSentencePunct c = false) :
    sentencesR s = 1 ∧
    (wordsR s = 3 →
      calculateReadability s =
        jsMax 0 (jsMin 100
          (100 - (3 : ℚ) / 1 * 1.8 - (charsR s : ℚ) / 3 * 8))) := by
  have hs := sentencesR_no_punct h
  refine ⟨hs, fun hw => ?_⟩
  rw [calculateReadability_formula, hw, hs]
  norm_num

/-- C2 witness at the concrete 3-word unpunctuated input "cat dog fox". -/
theorem C2_witness :
    (∀ c ∈ ("cat dog fox".toList), isSentencePunct c = false) ∧
    sentencesR ("cat dog fox".toList) = 1 :=
  ⟨by decide, (C2_no_terminal_punct ("cat dog fox".toList) (by decide)).1⟩

/-- C3: the word and sentence counts are nonzero for every input, so the
guard branch `if (sentences === 0 || words === 0) return 0` is
unreachable and `calculateReadability` always computes the clamped
formula; a whitespace-only input counts as 1 word with 0 characters and
scores 100 − 1×1.8 − 0×8 = 98.2. -/
theorem C3_guard_unreachable (s : List Char) (h : ∀ c ∈ s, isWS c = true) :
    (∀ t : List Char, sentencesR t ≠ 0 ∧ wordsR t ≠ 0) ∧
    (∀ t : List Char, calculateReadability t =
        jsMax 0 (jsMin 100
          (100 - ((wordsR t : ℚ) / (sentencesR t : ℚ)) * 1.8
               - ((charsR t : ℚ) / (wordsR t : ℚ)) * 8))) ∧
    wordsR s = 1 ∧ charsR s = 0 ∧ calculateReadability s = 491 / 5 := by
  have hw : wordsR s = 1 := wordsR_all_ws h
  have hc : charsR s = 0 := charsR_all_ws h
  have hs : sentencesR s = 1 := sentencesR_no_punct (all_ws_no_punct h)
  refine ⟨fun t => ?_, fun t => calculateReadability_formula t, hw, hc, ?_⟩
  · have h1 := sentencesR_pos t
    have h2 := wordsR_pos t
    omega
  · rw [calculateReadability_formula, hw, hc, hs]
    norm_num [jsMax, jsMin]

/-- C3 witness at the concrete whitespace-only input "   ". -/
theorem C3_witness :
    (∀ c ∈ ("   ".toList), isWS c = true) ∧
    wordsR ("   ".toList) = 1 ∧
    calculateReadability ("   ".toList) = 491 / 5 :=
  ⟨by decide, (C3_guard_unreachable ("   ".toList) (by decide)).2.2.1,
    (C3_guard_unreachable ("   ".toList) (by decide)).2.2.2.2⟩

/-- C4: the readability score, the keyword score and the headings score
all lie in the closed interval [0, 100] for every input. -/
theorem C4_scores_in_range (s : List Char) :
    (0 ≤ calculateReadability s ∧ calculateReadability s ≤ 100) ∧
    (0 ≤ (analyzeKeywords s).score ∧ (analyzeKeywords s).score ≤ 100) ∧
    (0 ≤ (analyzeHeadings s).score ∧ (analyzeHeadings s).score ≤ 100) := by
  refine ⟨⟨?_, ?_⟩, ⟨?_, ?_⟩, ?_⟩
  · rw [calculateReadability_formula]
    exact jsMax_zero_nonneg _
  · rw [calculateReadability_formula]
    exact jsMax_zero_le (jsMin_le_100 _) (by norm_num)
  · rw [analyzeKeywords_score]
    split
    · norm_num
    · refine jsMin_nonneg (by norm_num) ?_
      positivity
  · rw [analyzeKeywords_score]
    split
    · norm_num
    · exact jsMin_le_100 _
  · rw [analyzeHeadings_score]
    cases h1 : (analyzeHeadings s).hasH1 <;>
      cases h2 : (analyzeHeadings s).hasSubheadings <;> norm_num

/-- C5: the headings score is exactly one of 0, 50, 100, equalling 100
exactly when both a top-level heading and a sub-heading pattern are
present; the input "# Title\n\nThis is a short sentence. This is another
short sentence." has a top-level heading, no sub-heading, and score 50. -/
theorem C5_structure_score :
    (∀ s : List Char,
      ((analyzeHeadings s).score = 0 ∨ (analyzeHeadings s).score = 50 ∨
        (analyzeHeadings s).score = 100) ∧
      ((analyzeHeadings s).score = 100 ↔
        (analyzeHeadings s).hasH1 = true ∧
        (analyzeHeadings s).hasSubheadings = true)) ∧
    analyzeHeadings
        ("# Title\n\nThis is a short sentence. This is another short sentence.".toList) =
      ⟨50, true, false⟩ := by
  constructor
  · intro s
    rw [analyzeHeadings_score]
    cases h1 : (analyzeHeadings s).hasH1 <;>
      cases h2 : (analyzeHeadings s).hasSubheadings <;> norm_num
  · have h1 : (analyzeHeadings
        ("# Title\n\nThis is a short sentence. This is another short sentence.".toList)).hasH1 =
        true := by decide
    have h2 : (analyzeHeadings
        ("# Title\n\nThis is a short sentence. This is another short sentence.".toList)).hasSubheadings =
        false := by decide
    have hsc : (analyzeHeadings
        ("# Title\n\nThis is a short sentence. This is another short sentence.".toList)).score =
        50 := by
      rw [analyzeHeadings_score, h1, h2]
      norm_num
    rw [analyzeHeadings_eta
      ("# Title\n\nThis is a short sentence. This is another short sentence.".toList),
      h1, h2, hsc]

/-- C6: when the input has at least one qualifying token, the keyword
score is min(100, distinct/total × 150); on "cat cat cat dog dog bird"
the keyword list is exactly ["cat", "dog", "bird"] and the score is
(3/6)×150 = 75. -/
theorem C6_keyword_score :
    (∀ s : List Char, tokensOf s ≠ [] →
      (analyzeKeywords s).score =
        min 100 ((((tokensOf s).dedup.length : ℚ) /
          ((tokensOf s).length : ℚ)) * 150)) ∧
    (analyzeKeywords ("cat cat cat dog dog bird".toList)).keywords =
      ["cat".toList, "dog".toList, "bird".toList] ∧
    (analyzeKeywords ("cat cat cat dog dog bird".toList)).score = 75 := by
  refine ⟨fun s hne => ?_, by decide, ?_⟩
  · rw [analyzeKeywords_score, if_neg fun h => hne (List.length_eq_zero.mp h),
      keywordCounts_length_eq_dedup, jsMin_eq_min]
  · have h : keywordCounts (tokensOf ("cat cat cat dog dog bird".toList)) =
        [("cat".toList, 3), ("dog".toList, 2), ("bird".toList, 1)] := by decide
    have hl : (tokensOf ("cat cat cat dog dog bird".toList)).length = 6 := by
      decide
    rw [analyzeKeywords_score, if_neg (by decide), h, hl]
    norm_num [jsMin]

/-- C6 witness at the concrete input "cat cat cat dog dog bird". -/
theorem C6_witness :
    tokensOf ("cat cat cat dog dog bird".toList) ≠ [] ∧
    (analyzeKeywords ("cat cat cat dog dog bird".toList)).score =
      min 100 ((((tokensOf ("cat cat cat dog dog bird".toList)).dedup.length : ℚ) /
        ((tokensOf ("cat cat cat dog dog bird".toList)).length : ℚ)) * 150) :=
  ⟨by decide, C6_keyword_score.1 ("cat cat cat dog dog bird".toList) (by decide)⟩

/-- C7: the keyword list has length at most 5, is sorted in descending
order of token frequency, and contains only lower-case alphabetic tokens
of length at least 3. -/
theorem C7_keyword_list (s : List Char) :
    (analyzeKeywords s).keywords.length ≤ 5 ∧
    (analyzeKeywords s).keywords.Pairwise
      (fun a b => (tokensOf s).count b ≤ (tokensOf s).count a) ∧
    ∀ w ∈ (analyzeKeywords s).keywords,
      3 ≤ w.length ∧ ∀ c ∈ w, isLowerAlpha c = true := by
  rw [analyzeKeywords_keywords]
  split
  · simp
  · have hmemkc : ∀ p ∈ (sortDesc (keywordCounts (tokensOf s))).take 5,
        p ∈ keywordCounts (tokensOf s) := fun p hp =>
      (sortDesc_perm (keywordCounts (tokensOf s))).mem_iff.mp
        ((List.take_sublist 5 _).subset hp)
    refine ⟨?_, ?_, ?_⟩
    · rw [List.length_map, List.length_take]
      exact Nat.min_le_left _ _
    · rw [List.pairwise_map]
      have hsorted := (sortDesc_sorted (keywordCounts (tokensOf s))).sublist
        (List.take_sublist 5 _)
      refine hsorted.imp_of_mem ?_
      intro p q hp hq hpq
      have h1 := mem_keywordCounts_count (tokensOf s) p (hmemkc p hp)
      have h2 := mem_keywordCounts_count (tokensOf s) q (hmemkc q hq)
      rw [← h1, ← h2]
      exact hpq
    · intro w hw
      obtain ⟨p, hp, rfl⟩ := List.mem_map.mp hw
      have hmem : p.1 ∈ tokensOf s :=
        keys_subset_tokens (tokensOf s) p (hmemkc p hp)
      exact tokAux_spec (lc s) false [] (by simp) p.1 hmem

/-- C7 witness at the concrete input "cat cat cat dog dog bird". -/
theorem C7_witness :
    "cat".toList ∈
      (analyzeKeywords ("cat cat cat dog dog bird".toList)).keywords ∧
    3 ≤ ("cat".toList).length :=
  ⟨by decide,
   ((C7_keyword_list ("cat cat cat dog dog bird".toList)).2.2
     ("cat".toList) (by decide)).1⟩

/-- C8: `getSEOSuggestions` coincides with the deterministic rule table
of the specification on every input. -/
theorem C8_suggestions_match_table (s : List Char) :
    getSEOSuggestions s = buildSuggestionsSpec s := by
  have h3 : (3 ≤ (analyzeKeywords s).keywords.length) ↔
      ¬((analyzeKeywords s).keywords.length < 3) := by omega
  unfold getSEOSuggestions buildSuggestionsSpec
  by_cases hr : calculateReadability s < 50 <;>
    by_cases hk : (analyzeKeywords s).keywords.length < 3 <;>
      simp [hr, hk, h3]

/-- C9: the engine functions are total and return well-defined degenerate
values on degenerate inputs: whitespace-only input has word count 0, the
empty string and any token-free input yield keyword score 0 with an empty
keyword list, the empty string has heading score 0, and the readability
score is always a well-defined nonnegative rational. -/
theorem C9_totality :
    (∀ s : List Char, (∀ c ∈ s, isWS c = true) → calculateWordCount s = 0) ∧
    analyzeKeywords [] = ⟨0, []⟩ ∧
    (∀ s : List Char, tokensOf s = [] → analyzeKeywords s = ⟨0, []⟩) ∧
    analyzeHeadings [] = ⟨0, false, false⟩ ∧
    (∀ s : List Char, 0 ≤ calculateReadability s) := by
  refine ⟨fun s h => ?_, rfl, fun s h => ?_, ?_, fun s => ?_⟩
  · unfold calculateWordCount
    rw [jsTrim_all_ws h]
    rfl
  · simp [analyzeKeywords, h]
  · have h1 : (analyzeHeadings []).hasH1 = false := by decide
    have h2 : (analyzeHeadings []).hasSubheadings = false := by decide
    have hsc : (analyzeHeadings []).score = 0 := by
      rw [analyzeHeadings_score, h1, h2]
      norm_num
    rw [analyzeHeadings_eta [], h1, h2, hsc]
  · rw [calculateReadability_formula]
    exact jsMax_zero_nonneg _

/-- C9 witness at the concrete degenerate inputs "   " and "12 34 !!". -/
theorem C9_witness :
    ((∀ c ∈ ("   ".toList), isWS c = true) ∧
      calculateWordCount ("   ".toList) = 0) ∧
    (tokensOf ("12 34 !!".toList) = [] ∧
      analyzeKeywords ("12 34 !!".toList) = ⟨0, []⟩) :=
  ⟨⟨by decide, C9_totality.1 ("   ".toList) (by decide)⟩,
   ⟨by decide, C9_totality.2.2.1 ("12 34 !!".toList) (by decide)⟩⟩

/-- C10: the keywords suggestion list always has exactly one entry, the
general list always ends with the external-links and internal-links
suggestions (hence has at least two entries), and on the input
"# a\n## b" both the readability and the structure lists are empty. -/
theorem C10_suggestion_shape :
    (∀ s : List Char,
      (getSEOSuggestions s).keywords.length = 1 ∧
      (∃ p, (getSEOSuggestions s).general =
        p ++ [sugExternalLinks, sugInternalLinks]) ∧
      2 ≤ (getSEOSuggestions s).general.length) ∧
    (getSEOSuggestions ("# a\n## b".toList)).readability = [] ∧
    (getSEOSuggestions ("# a\n## b".toList)).structureSugs = [] := by
  refine ⟨fun s => ⟨?_, ?_, ?_⟩, ?_, ?_⟩
  · rw [getSEOSuggestions_keywords]
    split <;> rfl
  · exact ⟨_, getSEOSuggestions_general s⟩
  · rw [getSEOSuggestions_general]
    split <;> simp
  · rw [getSEOSuggestions_readability]
    have hr : ¬ (calculateReadability ("# a\n## b".toList) < 50) := by
      have hw : wordsR ("# a\n## b".toList) = 4 := by decide
      have hs : sentencesR ("# a\n## b".toList) = 1 := by decide
      have hc : charsR ("# a\n## b".toList) = 5 := by decide
      rw [calculateReadability_formula, hw, hs, hc]
      norm_num [jsMax, jsMin]
    rw [if_neg hr, if_neg (show ¬(hasSubstr veryT ("# a\n## b".toList) = true ∨
      hasSubstr reallyT ("# a\n## b".toList) = true) by decide)]
    rfl
  · rw [getSEOSuggestions_structure]
    have h1 : (analyzeHeadings ("# a\n## b".toList)).hasH1 = true := by decide
    have h2 : (analyzeHeadings ("# a\n## b".toList)).hasSubheadings = true := by
      decide
    rw [h1, h2]
    simp

end SEO
